import Mathlib

/-!
Verification of the pane registry, event classifier and lifecycle monitor of
`scripts/otel-receiver.py` (class `OTELReceiver` and the `idle_checker` task),
via a shallow embedding: the mutable `mappings` dict becomes an association
list with unique keys, timestamps become integers, and the filesystem /
tmux side effects become an explicit effect list.
-/

set_option autoImplicit false

namespace OtelReceiver

/-- Configuration constant `STALE_MAPPING_TIMEOUT = 600` (seconds). -/
def STALE_MAPPING_TIMEOUT : Int := 600

/-- Configuration constant `IDLE_TIMEOUT = 300` (seconds). -/
def IDLE_TIMEOUT : Int := 300

/-- An extracted OTLP attribute value: the Python code stores a `str`, an
`int` (via `int(value["intValue"])`) or a `bool` in the attributes dict. -/
inductive Value where
  | str (s : String)
  | int (n : Int)
  | bool (b : Bool)
deriving DecidableEq

/-- Python truthiness of an attribute value (`if v:`): empty string, zero and
`False` are falsy. -/
def Value.truthy : Value → Bool
  | .str s => s ≠ ""
  | .int n => n ≠ 0
  | .bool b => b

/-- Python `str()` / f-string rendering of an attribute value. -/
def Value.toStr : Value → String
  | .str s => s
  | .int n => toString n
  | .bool b => if b then "True" else "False"

/-- Python `v == s` for a string literal `s`: an `int` or `bool` value never
equals a string. -/
def Value.eqStr (v : Value) (s : String) : Bool :=
  match v with
  | .str t => t == s
  | _ => false

/-- Truthiness of `attributes.get(k)`: a missing key (`None`) is falsy. -/
def truthyOpt : Option Value → Bool
  | none => false
  | some v => v.truthy

/-- The attributes dict built by `_process_record`: string keys to scalar
values. Keys are unique (it is a Python dict). -/
abbrev AttrMap := List (String × Value)

/-- Python `attributes.get(k)`. -/
def getAttr (attributes : AttrMap) (k : String) : Option Value :=
  (attributes.find? (fun p => p.1 == k)).map (·.2)

/-- Prefix test `k.startswith(pre)` on the underlying character lists. -/
def charsStartWith : List Char → List Char → Bool
  | _, [] => true
  | [], _ :: _ => false
  | a :: as, p :: ps => a == p && charsStartWith as ps

/-- Python `s.startswith(pre)`. -/
def strStartsWith (s pre : String) : Bool :=
  charsStartWith s.data pre.data

/-- Python `s.lstrip("%")`: drop every leading `%` character. -/
def dropLeadingPercents : List Char → List Char
  | [] => []
  | c :: cs => if c == '%' then dropLeadingPercents cs else c :: cs

/-- Computes `pane_id.lstrip("%")` as used by `_write_state` / `_remove_state`. -/
def lstripPercent (s : String) : String :=
  String.mk (dropLeadingPercents s.data)

/-- One entry of `self.mappings`: the dict
`{"pane_id": ..., "registered_at": ..., "conversation_id": ...}`. -/
structure Mapping where
  pane_id : String
  registered_at : Int
  conversation_id : Option String
deriving DecidableEq

/-- Truthiness of the stored `conversation_id` field (`None` and `""` are
falsy). -/
def truthyConvId : Option String → Bool
  | none => false
  | some s => s ≠ ""

/-- The `self.mappings` dict: an association list with unique keys, in
insertion order (Python dicts preserve insertion order). -/
abbrev Table := List (String × Mapping)

/-- Python `self.mappings.get(k)`. -/
def lookupKey (t : Table) (k : String) : Option Mapping :=
  (t.find? (fun p => p.1 == k)).map (·.2)

/-- Python dict assignment `self.mappings[k] = m`: replace in place if the
key exists, otherwise append at the end. -/
def upsert (t : Table) (k : String) (m : Mapping) : Table :=
  if t.any (fun p => p.1 == k) then
    t.map (fun p => if p.1 == k then (k, m) else p)
  else
    t ++ [(k, m)]

/-- Python `del self.mappings[k]`. -/
def eraseKey (t : Table) (k : String) : Table :=
  t.filter (fun p => p.1 != k)

/-- The scan condition of `get_pane_for_conversation`:
`key.startswith("pending_") and not value.get("conversation_id")`. -/
def isPendingEntry (p : String × Mapping) : Bool :=
  strStartsWith p.1 "pending_" && !truthyConvId p.2.conversation_id

/-- The in-memory state of an `OTELReceiver`: the mappings table and the
`last_activity` timestamp. -/
structure Receiver where
  mappings : Table
  last_activity : Int
deriving DecidableEq

/-- Method `touch_activity` at time `now`. -/
def touch_activity (r : Receiver) (now : Int) : Receiver :=
  { r with last_activity := now }

/-- Method `is_idle` evaluated at time `now`:
`time.time() - self.last_activity > IDLE_TIMEOUT`. -/
def is_idle (r : Receiver) (now : Int) : Bool :=
  now - r.last_activity > IDLE_TIMEOUT

/-- The key chosen by `register_pane`:
`conversation_id or f"pending_{pane_id}"` (a `None` or empty conversation id
falls back to the synthetic pending key). -/
def mappingKeyFor (pane_id : String) (conversation_id : Option String) : String :=
  match conversation_id with
  | some c => if c ≠ "" then c else "pending_" ++ pane_id
  | none => "pending_" ++ pane_id

/-- Method `register_pane(pane_id, conversation_id)` at time `now`: touches
activity, stores the mapping under the chosen key, returns the key. -/
def register_pane (r : Receiver) (pane_id : String) (conversation_id : Option String)
    (now : Int) : Receiver × String :=
  let mapping_key := mappingKeyFor pane_id conversation_id
  ({ mappings := upsert r.mappings mapping_key
      { pane_id := pane_id, registered_at := now, conversation_id := conversation_id },
     last_activity := now },
   mapping_key)

/-- External side effects of the receiver (filesystem writes and tmux
shell-outs), recorded instead of performed. -/
inductive Effect where
  /-- Effect of `_remove_state(pane_id)`: unlink the state file named by the pane id
  with leading `%` stripped. -/
  | removeState (safe_id : String)
  /-- Effect of `_refresh_tmux()`. -/
  | refreshTmux
  /-- Effect of `_write_state(pane_id, status, session_id, message)`. -/
  | writeState (pane_id : String) (status : String) (session_id : String) (message : String)
deriving DecidableEq

/-- Method `unregister_pane(pane_id)` at time `now`: touches activity, deletes every
mapping whose `pane_id` field matches, then removes the state file and
refreshes tmux. -/
def unregister_pane (r : Receiver) (pane_id : String) (now : Int) :
    Receiver × List Effect :=
  let to_remove := (r.mappings.filter (fun p => p.2.pane_id == pane_id)).map Prod.fst
  ({ mappings := to_remove.foldl eraseKey r.mappings, last_activity := now },
   [Effect.removeState (lstripPercent pane_id), Effect.refreshTmux])

/-- Method `get_pane_for_conversation(conversation_id)`: direct lookup, else adopt
the first pending entry (create the binding under `conversation_id` copying
`pane_id` and `registered_at`, delete the pending entry). Does not touch
activity. -/
def get_pane_for_conversation (r : Receiver) (conversation_id : String) :
    Option String × Receiver :=
  match lookupKey r.mappings conversation_id with
  | some mapping => (some mapping.pane_id, r)
  | none =>
    match r.mappings.find? isPendingEntry with
    | some kv =>
        let adopted : Mapping :=
          { pane_id := kv.2.pane_id, registered_at := kv.2.registered_at,
            conversation_id := some conversation_id }
        (some kv.2.pane_id,
         { r with mappings := eraseKey (upsert r.mappings conversation_id adopted) kv.1 })
    | none => (none, r)

/-- Method `cleanup_stale_mappings` generalized over the timeout constant: delete
every mapping with `now - registered_at > ttl`. The Python code reads the
module constant `STALE_MAPPING_TIMEOUT` for `ttl`. -/
def cleanup_stale_mappings_with (t : Table) (now ttl : Int) : Table :=
  let to_remove := (t.filter (fun p => now - p.2.registered_at > ttl)).map Prod.fst
  to_remove.foldl eraseKey t

/-- Method `cleanup_stale_mappings()` at time `now`. Does not touch activity. -/
def cleanup_stale_mappings (r : Receiver) (now : Int) : Receiver :=
  { r with mappings := cleanup_stale_mappings_with r.mappings now STALE_MAPPING_TIMEOUT }

/-- One iteration of the `idle_checker` loop body at time `now`: first
`cleanup_stale_mappings()`, then `is_idle()`; the returned flag is whether
the loop shuts the server down and breaks. -/
def idle_checker_tick (r : Receiver) (now : Int) : Receiver × Bool :=
  let r1 := cleanup_stale_mappings r now
  (r1, is_idle r1 now)

/-- The classifier `_map_event_to_state(event_name, attributes)`: returns the
optional state (`"running"`, `"attention"` or `"done"`) and the message. -/
def map_event_to_state (event_name : String) (attributes : AttrMap) :
    Option String × String :=
  let model : Value := (getAttr attributes "model").getD (.str "")
  let tool : Value :=
    match getAttr attributes "tool_name" with
    | some v => v
    | none => (getAttr attributes "tool").getD (.str "")
  let status : Value := (getAttr attributes "status").getD (.str "")
  if event_name == "codex.conversation_starts" then
    (some "running",
     if model.truthy then "Codex: " ++ model.toStr else "Codex started")
  else if event_name == "codex.tool_decision" then
    if status.eqStr "pending" || truthyOpt (getAttr attributes "needs_approval") then
      (some "attention",
       if tool.truthy then "Approve? " ++ tool.toStr else "Approval needed")
    else if status.eqStr "approved" then
      (some "running",
       if tool.truthy then "Approved: " ++ tool.toStr else "Tool approved")
    else if status.eqStr "denied" then
      (some "done",
       if tool.truthy then "Denied: " ++ tool.toStr else "Tool denied")
    else
      (none, "")
  else if event_name == "codex.tool_result" then
    let success : Value := (getAttr attributes "success").getD (.bool true)
    if !success.truthy || status.eqStr "failed" || truthyOpt (getAttr attributes "error") then
      (some "attention",
       if tool.truthy then "Failed: " ++ tool.toStr else "Tool failed")
    else
      (some "running",
       if tool.truthy then "Ran: " ++ tool.toStr else "Tool completed")
  else if event_name == "codex.conversation_ends" then
    (some "done", "Codex finished")
  else if event_name == "codex.response" then
    (some "running", "Generating...")
  else if event_name == "codex.user_input_required" then
    (some "attention", "Input needed")
  else
    (none, "")

/-- A raw OTLP attribute value wrapper: at most one of the typed fields is
populated (`{"stringValue": ...}` etc.). -/
structure RawValue where
  stringValue : Option String := none
  intValue : Option Int := none
  boolValue : Option Bool := none
deriving DecidableEq

/-- A raw OTLP attribute `{"key": ..., "value": {...}}`. -/
structure RawAttr where
  key : String
  value : RawValue
deriving DecidableEq

/-- A raw OTLP log record or span: an optional `name` field (empty string
when absent) and an attribute list. -/
structure Record where
  name : String := ""
  attributes : List RawAttr := []
deriving DecidableEq

/-- Python dict assignment `attributes[k] = v` in the extraction loop. -/
def upsertAttr (attributes : AttrMap) (k : String) (v : Value) : AttrMap :=
  if attributes.any (fun p => p.1 == k) then
    attributes.map (fun p => if p.1 == k then (k, v) else p)
  else
    attributes ++ [(k, v)]

/-- The attribute-extraction loop of `_process_record`: take the first
populated field among `stringValue`, `intValue`, `boolValue`; drop the
attribute when none is populated. -/
def extractAttributes (raw : List RawAttr) : AttrMap :=
  raw.foldl
    (fun acc a =>
      match a.value.stringValue with
      | some s => upsertAttr acc a.key (.str s)
      | none =>
        match a.value.intValue with
        | some n => upsertAttr acc a.key (.int n)
        | none =>
          match a.value.boolValue with
          | some b => upsertAttr acc a.key (.bool b)
          | none => acc)
    []

/-- Event-name resolution of `_process_record`:
`attributes.get("event.name", "") or record.get("name", "")`, rendered as a
string. A non-string truthy `event.name` value stringifies; in Python it
stays an `int`/`bool`, but either way it compares unequal to every
recognized event name, so the two agree observationally. -/
def eventNameOf (rec : Record) : String :=
  let v : Value := (getAttr (extractAttributes rec.attributes) "event.name").getD (.str "")
  if v.truthy then v.toStr else rec.name

/-- Conversation-identity resolution of `_process_record`:
`attributes.get("conversation_id", "") or attributes.get("session_id", "")`,
rendered as a string (the ids carried by the payloads are strings). -/
def conversationIdOf (attributes : AttrMap) : String :=
  let c : Value := (getAttr attributes "conversation_id").getD (.str "")
  if c.truthy then c.toStr
  else ((getAttr attributes "session_id").getD (.str "")).toStr

/-- Python falsiness of an optional pane id (`if not pane_id:`): missing or
empty. -/
def strOptFalsy : Option String → Bool
  | none => true
  | some s => s == ""

/-- The fallback pending scan of `_process_record` (reached when
`get_pane_for_conversation` found nothing): take the first key starting with
`pending_` (without inspecting its stored `conversation_id`), and re-key it
only when `conversation_id` is truthy. Returns the pane id found and the
updated table. -/
def fallbackPendingScan (t : Table) (conversation_id : String) :
    Option String × Table :=
  match t.find? (fun p => strStartsWith p.1 "pending_") with
  | some kv =>
      if conversation_id ≠ "" then
        (some kv.2.pane_id,
         eraseKey
           (upsert t conversation_id
             { pane_id := kv.2.pane_id, registered_at := kv.2.registered_at,
               conversation_id := some conversation_id })
           kv.1)
      else
        (some kv.2.pane_id, t)
  | none => (none, t)

/-- Method `_process_record(record)`: extract attributes, resolve the event name and
conversation id, resolve the pane (direct lookup / adoption, then the
fallback pending scan), classify, and on a decision write the state file
and refresh tmux. Returns the updated receiver and the effects performed. -/
def process_record (r : Receiver) (rec : Record) : Receiver × List Effect :=
  let attributes := extractAttributes rec.attributes
  let event_name := eventNameOf rec
  let conversation_id := conversationIdOf attributes
  if event_name == "" then
    (r, [])
  else
    let step1 := get_pane_for_conversation r conversation_id
    let step2 : Option String × Receiver :=
      if strOptFalsy step1.1 then
        let scan := fallbackPendingScan step1.2.mappings conversation_id
        (scan.1, { step1.2 with mappings := scan.2 })
      else
        step1
    if strOptFalsy step2.1 then
      (step2.2, [])
    else
      let pane_id := (step2.1).getD ""
      let sm := map_event_to_state event_name attributes
      match sm.1 with
      | some st =>
          (step2.2,
           [Effect.writeState pane_id st conversation_id sm.2, Effect.refreshTmux])
      | none => (step2.2, [])

/-- Method `process_otel_data` restricted to the flattened record list: touches
activity once, then processes each record in order, accumulating effects. -/
def process_otel_data (r : Receiver) (records : List Record) (now : Int) :
    Receiver × List Effect :=
  records.foldl
    (fun acc rec =>
      let step := process_record acc.1 rec
      (step.1, acc.2 ++ step.2))
    (touch_activity r now, [])

/-- The `/health` introspection value `len(self.mappings)`. Reads the receiver without
modifying it. -/
def health_mapping_count (r : Receiver) : Nat :=
  r.mappings.length

/-- The six event names recognized by `_map_event_to_state`. -/
def recognizedEvents : List String :=
  ["codex.conversation_starts", "codex.tool_decision", "codex.tool_result",
   "codex.conversation_ends", "codex.response", "codex.user_input_required"]

/-- The tool name used in classifier messages, per the spec: the `tool_name`
attribute, falling back to `tool`. -/
def toolNameOf (attributes : AttrMap) : Option Value :=
  (getAttr attributes "tool_name").orElse (fun _ => getAttr attributes "tool")

/-- Render a classifier message from the spec wording: `pre ++ tool` when a
(non-empty) tool name is present, the fallback text otherwise. -/
def toolMsg (attributes : AttrMap) (pre fallback : String) : String :=
  match toolNameOf attributes with
  | some v => if v.truthy then pre ++ v.toStr else fallback
  | none => fallback

/-- Modelled from the spec: the claimed `tool_decision` decision table, as a
first-match precedence list over the status and approval attributes. -/
def tool_decision_spec (attributes : AttrMap) : Option String × String :=
  let status : Value := (getAttr attributes "status").getD (.str "")
  if status.eqStr "pending" || truthyOpt (getAttr attributes "needs_approval") then
    (some "attention", toolMsg attributes "Approve? " "Approval needed")
  else if status.eqStr "approved" then
    (some "running", toolMsg attributes "Approved: " "Tool approved")
  else if status.eqStr "denied" then
    (some "done", toolMsg attributes "Denied: " "Tool denied")
  else
    (none, "")

/-- Modelled from the spec: the claimed `tool_result` rule, read literally —
failure exactly when `success` is explicitly the boolean `false`, or
`status == "failed"`, or an `error` attribute is *present* (whatever its
value). -/
def tool_result_claim_spec (attributes : AttrMap) : Option String × String :=
  let status : Value := (getAttr attributes "status").getD (.str "")
  if getAttr attributes "success" == some (.bool false) || status.eqStr "failed"
      || (getAttr attributes "error").isSome then
    (some "attention", toolMsg attributes "Failed: " "Tool failed")
  else
    (some "running", toolMsg attributes "Ran: " "Tool completed")

/-- The `tool_result` rule as the code implements it: failure exactly when a
`success` attribute is present with a falsy value, or `status == "failed"`,
or an `error` attribute is present with a truthy value. -/
def tool_result_amended_spec (attributes : AttrMap) : Option String × String :=
  let status : Value := (getAttr attributes "status").getD (.str "")
  let successFalsy : Bool :=
    match getAttr attributes "success" with
    | some v => !v.truthy
    | none => false
  if successFalsy || status.eqStr "failed" || truthyOpt (getAttr attributes "error") then
    (some "attention", toolMsg attributes "Failed: " "Tool failed")
  else
    (some "running", toolMsg attributes "Ran: " "Tool completed")

/-- A pending binding attributed to pane `P`. -/
def isPendingFor (P : String) (p : String × Mapping) : Bool :=
  isPendingEntry p && p.2.pane_id == P

/-- Number of pending bindings for pane `P` in a table. -/
def countPendingFor (P : String) (t : Table) : Nat :=
  t.countP (isPendingFor P)

/-- Run a sequence of `register_pane` calls on the single pane `P`, each with
its own optional conversation id and timestamp. -/
def run_registers (P : String) (ops : List (Option String × Int)) (r : Receiver) :
    Receiver :=
  ops.foldl (fun acc op => (register_pane acc P op.1 op.2).1) r

/-! ### Helper lemmas about the table operations -/

theorem charsStartWith_append (p s : List Char) : charsStartWith (p ++ s) p = true := by
  induction p with
  | nil => cases s <;> rfl
  | cons a as ih => simp [charsStartWith, ih]

theorem strStartsWith_append (pre s : String) : strStartsWith (pre ++ s) pre = true := by
  simpa [strStartsWith] using charsStartWith_append pre.data s.data

theorem lookupKey_eq_none_iff (t : Table) (k : String) :
    lookupKey t k = none ↔ ∀ p ∈ t, ¬((p.1 == k) = true) := by
  simp [lookupKey, List.find?_eq_none]

theorem lookupKey_eraseKey_self (t : Table) (k : String) :
    lookupKey (eraseKey t k) k = none := by
  rw [lookupKey_eq_none_iff]
  intro p hp
  have hmem := List.mem_filter.mp hp
  have : p.1 ≠ k := by simpa using hmem.2
  simp [this]

theorem find?_ext {α : Type} {p q : α → Bool} (l : List α)
    (h : ∀ a, p a = q a) : l.find? p = l.find? q := by
  induction l with
  | nil => rfl
  | cons a as ih => rw [List.find?_cons, List.find?_cons, h a, ih]

theorem lookupKey_eraseKey_ne (t : Table) {c k : String} (h : c ≠ k) :
    lookupKey (eraseKey t k) c = lookupKey t c := by
  unfold lookupKey eraseKey
  rw [List.find?_filter]
  congr 1
  apply find?_ext
  intro a
  by_cases hac : a.1 = c
  · have hak : a.1 ≠ k := by rw [hac]; exact h
    simp [hac, hak, h]
  · simp [hac]

theorem lookupKey_upsert_self (t : Table) (k : String) (m : Mapping) :
    lookupKey (upsert t k m) k = some m := by
  unfold upsert
  by_cases hany : t.any (fun p => p.1 == k) = true
  · simp only [hany, if_true, lookupKey, List.find?_map]
    have hpred : ((fun p : String × Mapping => p.1 == k) ∘
        (fun p : String × Mapping => if p.1 == k then (k, m) else p)) =
        (fun p : String × Mapping => p.1 == k) := by
      funext p
      by_cases hp : p.1 = k <;> simp [hp]
    rw [hpred]
    cases hq : t.find? (fun p => p.1 == k) with
    | none =>
      obtain ⟨p0, hp0, hk0⟩ := List.any_eq_true.mp hany
      exact absurd hk0 (List.find?_eq_none.mp hq p0 hp0)
    | some q0 =>
      have hq0k : q0.1 = k := by simpa using List.find?_some hq
      simp [hq0k]
  · simp only [hany, if_false, Bool.false_eq_true, lookupKey, List.find?_append]
    have hnone : t.find? (fun p => p.1 == k) = none := by
      rw [List.find?_eq_none]
      intro x hx
      exact fun hxk => hany (List.any_eq_true.mpr ⟨x, hx, hxk⟩)
    simp [hnone]

theorem lookupKey_upsert_ne (t : Table) {c k : String} (m : Mapping) (h : c ≠ k) :
    lookupKey (upsert t k m) c = lookupKey t c := by
  unfold upsert
  by_cases hany : t.any (fun p => p.1 == k) = true
  · simp only [hany, if_true, lookupKey, List.find?_map]
    have hpred : ((fun p : String × Mapping => p.1 == c) ∘
        (fun p : String × Mapping => if p.1 == k then (k, m) else p)) =
        (fun p : String × Mapping => p.1 == c) := by
      funext p
      by_cases hp : p.1 = k
      · simp [hp, fun e : k = c => h e.symm]
      · simp [hp]
    rw [hpred]
    cases hq : t.find? (fun p => p.1 == c) with
    | none => simp
    | some q0 =>
      have hq0c : q0.1 = c := by simpa using List.find?_some hq
      have : q0.1 ≠ k := by rw [hq0c]; exact h
      simp [this]
  · simp only [hany, if_false, Bool.false_eq_true, lookupKey, List.find?_append]
    have hkc : List.find? (fun p => p.1 == c) [(k, m)] = none := by
      rw [List.find?_eq_none]
      intro x hx
      simp only [List.mem_singleton] at hx
      rw [hx]
      simp
      exact fun e => h e.symm
    simp [hkc]

/-- Folding `eraseKey` over a key list filters out exactly the listed keys. -/
theorem foldl_eraseKey_eq_filter (ks : List String) (t : Table) :
    ks.foldl eraseKey t = t.filter (fun p => !(ks.contains p.1)) := by
  induction ks generalizing t with
  | nil => simp [List.contains]
  | cons k ks ih =>
    rw [List.foldl_cons, ih, eraseKey, List.filter_filter]
    apply List.filter_congr
    intro p _
    show (!ks.contains p.1 && (p.1 != k)) = !((k :: ks).contains p.1)
    by_cases hpk : p.1 = k <;> by_cases hks : p.1 ∈ ks <;> simp [hpk, hks]

/-- The common shape of `unregister_pane` and `cleanup_stale_mappings`:
collect the keys of the entries satisfying `q`, then delete those keys.
Under key uniqueness this removes exactly the `q`-entries. -/
theorem removeKeys_eq_filter (t : Table) (q : String × Mapping → Bool)
    (hnd : (t.map Prod.fst).Nodup) :
    ((t.filter q).map Prod.fst).foldl eraseKey t = t.filter (fun p => !q p) := by
  rw [foldl_eraseKey_eq_filter]
  apply List.filter_congr
  intro p hp
  congr 1
  by_cases hq : q p = true
  · have hmem : p.1 ∈ (t.filter q).map Prod.fst :=
      List.mem_map_of_mem Prod.fst (List.mem_filter.mpr ⟨hp, hq⟩)
    rw [hq, List.contains_iff_exists_mem_beq]
    exact ⟨p.1, hmem, by simp⟩
  · have hqf : q p = false := by
      cases hqv : q p
      · rfl
      · exact absurd hqv hq
    rw [hqf]
    cases hcont : ((t.filter q).map Prod.fst).contains p.1 with
    | false => rfl
    | true =>
      exfalso
      obtain ⟨b, hb, hbeq⟩ := List.contains_iff_exists_mem_beq.mp hcont
      obtain ⟨y, hy, hy1⟩ := List.mem_map.mp hb
      have hyt := List.mem_filter.mp hy
      have hyp : y = p := List.inj_on_of_nodup_map hnd hyt.1 hp (by
        rw [hy1]
        exact (eq_of_beq hbeq).symm)
      rw [hyp] at hyt
      exact hq hyt.2

/-- Upserting does not introduce duplicate keys. -/
theorem nodupKeys_upsert (t : Table) (k : String) (m : Mapping)
    (hnd : (t.map Prod.fst).Nodup) :
    ((upsert t k m).map Prod.fst).Nodup := by
  unfold upsert
  by_cases hany : t.any (fun p => p.1 == k) = true
  · simp only [hany, if_true]
    have : ((t.map fun p => if p.1 == k then (k, m) else p).map Prod.fst) =
        t.map Prod.fst := by
      rw [List.map_map]
      apply List.map_congr_left
      intro p _
      by_cases hpk : p.1 = k <;> simp [hpk]
    rw [this]
    exact hnd
  · simp only [hany, if_false, Bool.false_eq_true, List.map_append]
    rw [List.nodup_append]
    refine ⟨hnd, List.nodup_singleton k, ?_⟩
    intro x hx hk
    simp at hk
    subst hk
    obtain ⟨y, hy, hy1⟩ := List.mem_map.mp hx
    exact hany (List.any_eq_true.mpr ⟨y, hy, by simp [hy1]⟩)

/-- Every entry of `upsert t k m` is an entry of `t` or the new pair. -/
theorem mem_upsert {t : Table} {k : String} {m : Mapping} {p : String × Mapping}
    (hp : p ∈ upsert t k m) : p ∈ t ∨ p = (k, m) := by
  unfold upsert at hp
  by_cases hany : t.any (fun p => p.1 == k) = true
  · simp only [hany, if_true] at hp
    obtain ⟨a, ha, hfa⟩ := List.mem_map.mp hp
    by_cases hak : a.1 = k
    · right
      rw [← hfa]
      simp [hak]
    · left
      rw [← hfa]
      simpa [hak] using ha
  · simp only [hany, if_false, Bool.false_eq_true, List.mem_append] at hp
    rcases hp with h | h
    · exact Or.inl h
    · right
      simpa using h

/-- When exactly one element satisfies `p` and `a` is a member satisfying it,
the scan finds `a`. -/
theorem find?_of_countP_eq_one {α : Type} {p : α → Bool} {l : List α} {a : α}
    (h1 : l.countP p = 1) (ha : a ∈ l) (hpa : p a = true) :
    l.find? p = some a := by
  induction l with
  | nil => cases ha
  | cons x xs ih =>
    by_cases hx : p x = true
    · rw [List.find?_cons_of_pos _ hx]
      rw [List.countP_cons_of_pos _ _ hx] at h1
      have hxs : xs.countP p = 0 := by omega
      rcases List.mem_cons.mp ha with rfl | hmem
      · rfl
      · exact absurd hpa (List.countP_eq_zero.mp hxs a hmem)
    · rw [List.find?_cons_of_neg _ hx]
      rw [List.countP_cons_of_neg _ _ hx] at h1
      rcases List.mem_cons.mp ha with rfl | hmem
      · exact absurd hpa hx
      · exact ih h1 hmem

/-- Inserting a fresh key appends at the end of the table. -/
theorem upsert_of_not_mem (t : Table) (k : String) (m : Mapping)
    (h : lookupKey t k = none) : upsert t k m = t ++ [(k, m)] := by
  unfold upsert
  have hany : t.any (fun p => p.1 == k) = false := by
    rw [List.any_eq_false]
    intro x hx
    exact (lookupKey_eq_none_iff t k).mp h x hx
  simp [hany]

/-- Eviction `cleanup_stale_mappings_with` keeps exactly the entries of age at most
`ttl`, in order. -/
theorem cleanup_stale_mappings_with_eq_filter (t : Table) (now ttl : Int)
    (hnd : (t.map Prod.fst).Nodup) :
    cleanup_stale_mappings_with t now ttl =
      t.filter (fun p => now - p.2.registered_at ≤ ttl) := by
  unfold cleanup_stale_mappings_with
  rw [removeKeys_eq_filter t _ hnd]
  apply List.filter_congr
  intro p _
  by_cases hage : now - p.2.registered_at ≤ ttl
  · have hgt : ¬ now - p.2.registered_at > ttl := not_lt.mpr hage
    simp [hage, hgt]
  · have hgt : now - p.2.registered_at > ttl := lt_of_not_ge hage
    simp [hage, hgt]

/-- Resolution `get_pane_for_conversation` never changes `last_activity`. -/
theorem get_pane_for_conversation_last_activity (r : Receiver) (c : String) :
    (get_pane_for_conversation r c).2.last_activity = r.last_activity := by
  unfold get_pane_for_conversation
  cases lookupKey r.mappings c with
  | some m => rfl
  | none =>
    cases r.mappings.find? isPendingEntry with
    | some kv => rfl
    | none => rfl

/-- Processing `_process_record` never changes `last_activity` (it never calls
`touch_activity`). -/
theorem process_record_last_activity (r : Receiver) (rec : Record) :
    (process_record r rec).1.last_activity = r.last_activity := by
  unfold process_record
  by_cases hev : (eventNameOf rec == "") = true
  · simp [hev]
  · simp only [hev, Bool.false_eq_true, if_false]
    have h1 := get_pane_for_conversation_last_activity r
      (conversationIdOf (extractAttributes rec.attributes))
    by_cases h2 : strOptFalsy
        (get_pane_for_conversation r
          (conversationIdOf (extractAttributes rec.attributes))).1 = true
    · simp only [h2, if_true]
      by_cases h3 : strOptFalsy (fallbackPendingScan
          (get_pane_for_conversation r
            (conversationIdOf (extractAttributes rec.attributes))).2.mappings
          (conversationIdOf (extractAttributes rec.attributes))).1 = true
      · simp [h3, h1]
      · simp only [h3, Bool.false_eq_true, if_false]
        cases (map_event_to_state (eventNameOf rec)
            (extractAttributes rec.attributes)).1 with
        | some st => simp [h1]
        | none => simp [h1]
    · simp only [h2, Bool.false_eq_true, if_false]
      cases (map_event_to_state (eventNameOf rec)
          (extractAttributes rec.attributes)).1 with
      | some st => simp [h1]
      | none => simp [h1]

/-- Along `process_otel_data`, `last_activity` stays at the touch time. -/
theorem process_otel_data_last_activity (r : Receiver) (records : List Record)
    (now : Int) :
    (process_otel_data r records now).1.last_activity = now := by
  unfold process_otel_data
  suffices h : ∀ (acc : Receiver × List Effect),
      acc.1.last_activity = now →
      (records.foldl
        (fun acc rec =>
          let step := process_record acc.1 rec
          (step.1, acc.2 ++ step.2)) acc).1.last_activity = now by
    exact h (touch_activity r now, []) rfl
  induction records with
  | nil => intro acc hacc; exact hacc
  | cons rec recs ih =>
    intro acc hacc
    apply ih
    rw [process_record_last_activity]
    exact hacc

/-- If every `q`-entry of a duplicate-free table is forced onto one key,
there is at most one such entry. -/
theorem countP_le_one_of_key_forced (t : Table) (q : String × Mapping → Bool)
    (k : String) (hnd : (t.map Prod.fst).Nodup)
    (hq : ∀ p ∈ t, q p = true → p.1 = k) :
    t.countP q ≤ 1 := by
  induction t with
  | nil => simp
  | cons a as ih =>
    simp only [List.map_cons, List.nodup_cons] at hnd
    by_cases hqa : q a = true
    · rw [List.countP_cons_of_pos _ _ hqa]
      have hak : a.1 = k := hq a (List.mem_cons_self a as) hqa
      have hzero : as.countP q = 0 := by
        rw [List.countP_eq_zero]
        intro b hb hqb
        have hbk : b.1 = k := hq b (List.mem_cons_of_mem _ hb) hqb
        exact hnd.1 (by
          rw [hak, ← hbk]
          exact List.mem_map_of_mem Prod.fst hb)
      omega
    · rw [List.countP_cons_of_neg _ _ hqa]
      exact ih hnd.2 fun p hp => hq p (List.mem_cons_of_mem _ hp)

/-- Along any register sequence on pane `P`, keys stay duplicate-free and
every pending binding for `P` sits under the synthetic key `pending_P`. -/
theorem run_registers_invariant (P : String) (ops : List (Option String × Int))
    (r : Receiver) (hnd : (r.mappings.map Prod.fst).Nodup)
    (hkey : ∀ p ∈ r.mappings, isPendingFor P p = true → p.1 = "pending_" ++ P) :
    ((run_registers P ops r).mappings.map Prod.fst).Nodup ∧
    ∀ p ∈ (run_registers P ops r).mappings,
      isPendingFor P p = true → p.1 = "pending_" ++ P := by
  induction ops generalizing r with
  | nil => exact ⟨hnd, hkey⟩
  | cons op ops ih =>
    apply ih
    · exact nodupKeys_upsert _ _ _ hnd
    · intro p hp hpend
      rcases mem_upsert hp with hmem | hnew
      · exact hkey p hmem hpend
      · subst hnew
        cases hop : op.1 with
        | none => simp [mappingKeyFor, hop]
        | some c =>
          by_cases hc : c = ""
          · simp [mappingKeyFor, hop, hc]
          · exfalso
            rw [isPendingFor, isPendingEntry] at hpend
            rw [hop] at hpend
            simp [truthyConvId, hc] at hpend

/-!  ### The claims  -/

/-- C5: for every mapping table, `evictStale(now, ttl)` removes exactly the
bindings whose age `now - registeredAt` is strictly greater than `ttl`,
independent of adoption; every other binding, including one whose age equals
`ttl` exactly, is left unchanged, in place. -/
theorem C5_evictStale_removes_strictly_older (t : Table) (now ttl : Int)
    (hnd : (t.map Prod.fst).Nodup) :
    cleanup_stale_mappings_with t now ttl =
      t.filter (fun p => now - p.2.registered_at ≤ ttl) :=
  cleanup_stale_mappings_with_eq_filter t now ttl hnd

theorem C5_evictStale_removes_strictly_older_witness :
    ((([("a", (⟨"p", 0, none⟩ : Mapping)), ("b", ⟨"q", 100, none⟩)] : Table).map
      Prod.fst).Nodup) ∧
    cleanup_stale_mappings_with
        [("a", ⟨"p", 0, none⟩), ("b", ⟨"q", 100, none⟩)] 700 600 =
      ([("a", (⟨"p", 0, none⟩ : Mapping)), ("b", ⟨"q", 100, none⟩)] : Table).filter
        (fun p => 700 - p.2.registered_at ≤ 600) :=
  ⟨by decide,
   C5_evictStale_removes_strictly_older
     [("a", ⟨"p", 0, none⟩), ("b", ⟨"q", 100, none⟩)] 700 600 (by decide)⟩

/-- C6: `unregister(P)` removes every binding whose `paneId` is `P` (possibly
several entries), leaves every binding with a different `paneId` unchanged,
always succeeds (it is total), and emits exactly the deletion of the
persisted status record of `P` (keyed by the pane id with leading `%` stripped)
followed by the display refresh. -/
theorem C6_unregister_removes_every_pane_binding (r : Receiver) (P : String)
    (now : Int) (hnd : (r.mappings.map Prod.fst).Nodup) :
    (unregister_pane r P now).1.mappings =
      r.mappings.filter (fun p => !(p.2.pane_id == P)) ∧
    (∀ p, p ∈ (unregister_pane r P now).1.mappings ↔
      p ∈ r.mappings ∧ p.2.pane_id ≠ P) ∧
    (unregister_pane r P now).2 =
      [Effect.removeState (lstripPercent P), Effect.refreshTmux] := by
  have hfil : (unregister_pane r P now).1.mappings =
      r.mappings.filter (fun p => !(p.2.pane_id == P)) := by
    show ((r.mappings.filter (fun p => p.2.pane_id == P)).map Prod.fst).foldl
        eraseKey r.mappings = _
    exact removeKeys_eq_filter r.mappings _ hnd
  refine ⟨hfil, ?_, rfl⟩
  intro p
  rw [hfil, List.mem_filter]
  simp

theorem C6_unregister_removes_every_pane_binding_witness :
    ((({ mappings := [("c1", ⟨"%1", 0, some "c1"⟩), ("pending_%1", ⟨"%1", 3, none⟩),
          ("c2", ⟨"%2", 0, some "c2"⟩)], last_activity := 0 } : Receiver).mappings.map
        Prod.fst).Nodup) ∧
    (unregister_pane
        { mappings := [("c1", ⟨"%1", 0, some "c1"⟩), ("pending_%1", ⟨"%1", 3, none⟩),
            ("c2", ⟨"%2", 0, some "c2"⟩)], last_activity := 0 } "%1" 77).1.mappings =
      [("c2", ⟨"%2", 0, some "c2"⟩)] ∧
    (unregister_pane
        { mappings := [("c1", ⟨"%1", 0, some "c1"⟩), ("pending_%1", ⟨"%1", 3, none⟩),
            ("c2", ⟨"%2", 0, some "c2"⟩)], last_activity := 0 } "%1" 77).2 =
      [Effect.removeState "1", Effect.refreshTmux] := by
  refine ⟨by decide, ?_, ?_⟩
  · rw [(C6_unregister_removes_every_pane_binding
      { mappings := [("c1", ⟨"%1", 0, some "c1"⟩), ("pending_%1", ⟨"%1", 3, none⟩),
          ("c2", ⟨"%2", 0, some "c2"⟩)], last_activity := 0 } "%1" 77 (by decide)).1]
    decide
  · rw [(C6_unregister_removes_every_pane_binding
      { mappings := [("c1", ⟨"%1", 0, some "c1"⟩), ("pending_%1", ⟨"%1", 3, none⟩),
          ("c2", ⟨"%2", 0, some "c2"⟩)], last_activity := 0 } "%1" 77 (by decide)).2.2]
    decide

/-- C4, counterexample: `resolve` (`get_pane_for_conversation`) and
`evictStale` (`cleanup_stale_mappings`) leave the activity timestamp exactly
as it was — here still `5` after an eviction pass at time `1000` — so it is
false that every public registry operation updates the activity timestamp. -/
theorem C4_counterexample :
    (get_pane_for_conversation { mappings := [], last_activity := 5 } "c").2.last_activity = 5 ∧
    (cleanup_stale_mappings { mappings := [], last_activity := 5 } 1000).last_activity = 5 := by
  constructor <;> rfl

/-- C4, amended: `register` and `unregister` set the activity timestamp to
the current time, and so does an ingestion-processing call
(`process_otel_data`); `resolve`, `evictStale` and the reads of the health
check never change it, nor does the idle/stale housekeeping sweep itself. -/
theorem C4_activity_touching (r : Receiver) (p c : String) (oc : Option String)
    (now : Int) (records : List Record) :
    (register_pane r p oc now).1.last_activity = now ∧
    (unregister_pane r p now).1.last_activity = now ∧
    (process_otel_data r records now).1.last_activity = now ∧
    (get_pane_for_conversation r c).2.last_activity = r.last_activity ∧
    (cleanup_stale_mappings r now).last_activity = r.last_activity ∧
    (idle_checker_tick r now).1.last_activity = r.last_activity :=
  ⟨rfl, rfl, process_otel_data_last_activity r records now,
   get_pane_for_conversation_last_activity r c, rfl, rfl⟩

/-- C9: one tick of the lifecycle monitor first runs stale eviction (the
resulting table is the eviction of the old one, whatever the idle outcome),
then requests shutdown and stops exactly when `now - lastActivity` is
strictly greater than `IDLE_TIMEOUT`; a `touch_activity` at time `t` resets
the window, so a tick within `IDLE_TIMEOUT` of `t` does not shut down. -/
theorem C9_idle_tick (r : Receiver) (now t : Int)
    (hnd : (r.mappings.map Prod.fst).Nodup) :
    (idle_checker_tick r now).1.mappings =
      r.mappings.filter (fun p => now - p.2.registered_at ≤ STALE_MAPPING_TIMEOUT) ∧
    ((idle_checker_tick r now).2 = true ↔ now - r.last_activity > IDLE_TIMEOUT) ∧
    (now - t ≤ IDLE_TIMEOUT →
      (idle_checker_tick (touch_activity r t) now).2 = false) := by
  refine ⟨cleanup_stale_mappings_with_eq_filter r.mappings now STALE_MAPPING_TIMEOUT hnd,
    ?_, ?_⟩
  · show is_idle _ now = true ↔ _
    unfold is_idle cleanup_stale_mappings
    exact decide_eq_true_iff
  · intro hwin
    show is_idle _ now = false
    unfold is_idle cleanup_stale_mappings touch_activity
    simp only []
    exact decide_eq_false (not_lt.mpr hwin)

theorem C9_idle_tick_witness :
    ((({ mappings := [("a", ⟨"p", 0, none⟩)], last_activity := 100 } : Receiver).mappings.map
      Prod.fst).Nodup) ∧
    (idle_checker_tick
        { mappings := [("a", ⟨"p", 0, none⟩)], last_activity := 100 } 401).2 = true ∧
    (idle_checker_tick
        (touch_activity { mappings := [("a", ⟨"p", 0, none⟩)], last_activity := 100 } 200)
        401).2 = false := by
  refine ⟨by decide, ?_, ?_⟩
  · exact (C9_idle_tick { mappings := [("a", ⟨"p", 0, none⟩)], last_activity := 100 }
      401 200 (by decide)).2.1.mpr (by decide)
  · exact (C9_idle_tick { mappings := [("a", ⟨"p", 0, none⟩)], last_activity := 100 }
      401 200 (by decide)).2.2 (by decide)

/-- C1: when the table holds exactly one pending binding — the placeholder
`pending_P` created by `register(P)` without a conversation id — and no
binding keyed by `C`, `resolve(C)` returns `P`, and afterwards exactly one
binding is keyed by `C`, carrying `paneId = P`, the `registeredAt` copied
from the pending entry and `conversationId = C`, while `pending_P` is gone. -/
theorem C1_resolve_adopts_the_pending_binding (r : Receiver) (P C : String)
    (reg : Int)
    (hmem : ("pending_" ++ P, (⟨P, reg, none⟩ : Mapping)) ∈ r.mappings)
    (huniq : r.mappings.countP isPendingEntry = 1)
    (hC : lookupKey r.mappings C = none) :
    (get_pane_for_conversation r C).1 = some P ∧
    lookupKey (get_pane_for_conversation r C).2.mappings C =
      some ⟨P, reg, some C⟩ ∧
    (get_pane_for_conversation r C).2.mappings.countP (fun p => p.1 == C) = 1 ∧
    lookupKey (get_pane_for_conversation r C).2.mappings ("pending_" ++ P) =
      none := by
  have hpend : isPendingEntry ("pending_" ++ P, (⟨P, reg, none⟩ : Mapping)) = true := by
    simp [isPendingEntry, truthyConvId, strStartsWith_append]
  have hfind : r.mappings.find? isPendingEntry =
      some ("pending_" ++ P, ⟨P, reg, none⟩) :=
    find?_of_countP_eq_one huniq hmem hpend
  have hCne : C ≠ "pending_" ++ P := by
    intro he
    have := (lookupKey_eq_none_iff r.mappings C).mp hC _ hmem
    simp [← he] at this
  have hres : get_pane_for_conversation r C =
      (some P,
       { r with mappings :=
          eraseKey (upsert r.mappings C ⟨P, reg, some C⟩) ("pending_" ++ P) }) := by
    unfold get_pane_for_conversation
    rw [hC, hfind]
  rw [hres]
  refine ⟨rfl, ?_, ?_, ?_⟩
  · rw [lookupKey_eraseKey_ne _ hCne, lookupKey_upsert_self]
  · rw [upsert_of_not_mem _ _ _ hC]
    show ((r.mappings ++ [(C, (⟨P, reg, some C⟩ : Mapping))]).filter
        (fun p => p.1 != ("pending_" ++ P))).countP (fun p => p.1 == C) = 1
    rw [List.countP_filter]
    have hext : (r.mappings ++ [(C, (⟨P, reg, some C⟩ : Mapping))]).countP
        (fun a => (a.1 == C) && (a.1 != ("pending_" ++ P))) =
        (r.mappings ++ [(C, (⟨P, reg, some C⟩ : Mapping))]).countP
        (fun a => a.1 == C) := by
      apply List.countP_congr
      intro x _
      constructor
      · intro hx
        exact (Bool.and_eq_true _ _ |>.mp hx).1
      · intro hx
        have hx1 : x.1 = C := by simpa using hx
        refine Bool.and_eq_true _ _ |>.mpr ⟨hx, ?_⟩
        simp [hx1]
        exact hCne
    rw [hext, List.countP_append]
    have h0 : r.mappings.countP (fun a => a.1 == C) = 0 := by
      rw [List.countP_eq_zero]
      exact (lookupKey_eq_none_iff r.mappings C).mp hC
    rw [h0]
    simp
  · exact lookupKey_eraseKey_self _ _

theorem C1_resolve_adopts_the_pending_binding_witness :
    (("pending_" ++ "%3", (⟨"%3", 10, none⟩ : Mapping)) ∈
        ({ mappings := [("pending_%3", ⟨"%3", 10, none⟩)], last_activity := 0 } :
          Receiver).mappings ∧
      ({ mappings := [("pending_%3", ⟨"%3", 10, none⟩)], last_activity := 0 } :
        Receiver).mappings.countP isPendingEntry = 1 ∧
      lookupKey ({ mappings := [("pending_%3", ⟨"%3", 10, none⟩)], last_activity := 0 } :
        Receiver).mappings "abc" = none) ∧
    (get_pane_for_conversation
        { mappings := [("pending_%3", ⟨"%3", 10, none⟩)], last_activity := 0 }
        "abc").1 = some "%3" ∧
    lookupKey (get_pane_for_conversation
        { mappings := [("pending_%3", ⟨"%3", 10, none⟩)], last_activity := 0 }
        "abc").2.mappings "abc" = some ⟨"%3", 10, some "abc"⟩ :=
  ⟨⟨by decide, by decide, by decide⟩,
   (C1_resolve_adopts_the_pending_binding
      { mappings := [("pending_%3", ⟨"%3", 10, none⟩)], last_activity := 0 }
      "%3" "abc" 10 (by decide) (by decide) (by decide)).1,
   (C1_resolve_adopts_the_pending_binding
      { mappings := [("pending_%3", ⟨"%3", 10, none⟩)], last_activity := 0 }
      "%3" "abc" 10 (by decide) (by decide) (by decide)).2.1⟩

/-- C10: a record with neither `conversation_id` nor `session_id` resolves
to the empty conversation id, and `resolve("")` still adopts a pending
binding: it returns its pane id, deletes the pending entry, and creates a
binding keyed by the empty string. -/
theorem C10_empty_conversation_id_still_adopts (r : Receiver)
    (attributes : AttrMap) (k : String) (v : Mapping)
    (hca : getAttr attributes "conversation_id" = none)
    (hsa : getAttr attributes "session_id" = none)
    (hC : lookupKey r.mappings "" = none)
    (hfind : r.mappings.find? isPendingEntry = some (k, v)) :
    conversationIdOf attributes = "" ∧
    (get_pane_for_conversation r "").1 = some v.pane_id ∧
    lookupKey (get_pane_for_conversation r "").2.mappings k = none ∧
    lookupKey (get_pane_for_conversation r "").2.mappings "" =
      some ⟨v.pane_id, v.registered_at, some ""⟩ := by
  have hk : k ≠ "" := by
    have hpe : isPendingEntry (k, v) = true := List.find?_some hfind
    have hsw : strStartsWith k "pending_" = true := by
      rw [isPendingEntry] at hpe
      exact (Bool.and_eq_true _ _ |>.mp hpe).1
    intro he
    subst he
    exact absurd hsw (by decide)
  have hres : get_pane_for_conversation r "" =
      (some v.pane_id,
       { r with mappings :=
          eraseKey (upsert r.mappings ""
            ⟨v.pane_id, v.registered_at, some ""⟩) k }) := by
    unfold get_pane_for_conversation
    rw [hC, hfind]
  refine ⟨?_, ?_, ?_, ?_⟩
  · unfold conversationIdOf
    rw [hca, hsa]
    rfl
  · rw [hres]
  · rw [hres]
    exact lookupKey_eraseKey_self _ _
  · rw [hres]
    show lookupKey (eraseKey _ k) "" = _
    rw [lookupKey_eraseKey_ne _ (fun he => hk he.symm), lookupKey_upsert_self]

theorem C10_empty_conversation_id_still_adopts_witness :
    (getAttr [] "conversation_id" = none ∧
      getAttr [] "session_id" = none ∧
      lookupKey ({ mappings := [("pending_%7", ⟨"%7", 42, none⟩)], last_activity := 0 } :
        Receiver).mappings "" = none ∧
      ({ mappings := [("pending_%7", ⟨"%7", 42, none⟩)], last_activity := 0 } :
        Receiver).mappings.find? isPendingEntry =
          some ("pending_%7", ⟨"%7", 42, none⟩)) ∧
    (get_pane_for_conversation
        { mappings := [("pending_%7", ⟨"%7", 42, none⟩)], last_activity := 0 } "").1 =
      some "%7" ∧
    lookupKey (get_pane_for_conversation
        { mappings := [("pending_%7", ⟨"%7", 42, none⟩)], last_activity := 0 }
        "").2.mappings "" = some ⟨"%7", 42, some ""⟩ :=
  ⟨⟨by decide, by decide, by decide, by decide⟩,
   (C10_empty_conversation_id_still_adopts
      { mappings := [("pending_%7", ⟨"%7", 42, none⟩)], last_activity := 0 }
      [] "pending_%7" ⟨"%7", 42, none⟩
      (by decide) (by decide) (by decide) (by decide)).2.1,
   (C10_empty_conversation_id_still_adopts
      { mappings := [("pending_%7", ⟨"%7", 42, none⟩)], last_activity := 0 }
      [] "pending_%7" ⟨"%7", 42, none⟩
      (by decide) (by decide) (by decide) (by decide)).2.2.2⟩

/-- C2: on a `tool_decision` event the classifier follows the claimed
precedence exactly, first match winning: `status == "pending"` or truthy
`needs_approval` gives attention with the approval message; else
`status == "approved"` gives running; else `status == "denied"` gives done;
otherwise no decision with an empty message. The message names the tool
from `tool_name`, falling back to `tool`, when one is present. -/
theorem C2_tool_decision_precedence (attributes : AttrMap) :
    map_event_to_state "codex.tool_decision" attributes =
      tool_decision_spec attributes := by
  unfold map_event_to_state tool_decision_spec toolMsg toolNameOf
  cases h1 : getAttr attributes "tool_name" with
  | some v => simp [h1, Option.orElse]
  | none =>
    cases h2 : getAttr attributes "tool" with
    | some w => simp [h1, h2, Option.orElse]
    | none => simp [h1, h2, Option.orElse, Value.truthy]

/-- C3, counterexample: with an `error` attribute present but holding the
empty string, the code reports success (`running`, `"Tool completed"`),
while the claim — an `error` attribute being *present* forces failure —
demands `attention`, `"Tool failed"`. -/
theorem C3_counterexample :
    map_event_to_state "codex.tool_result" [("error", Value.str "")] =
      (some "running", "Tool completed") ∧
    tool_result_claim_spec [("error", Value.str "")] =
      (some "attention", "Tool failed") := by
  constructor <;> decide

/-- C3, amended: a `tool_result` event yields attention with the failure
message exactly when a `success` attribute is present with a falsy value
(`false`, `0` or `""`), or `status == "failed"`, or an `error` attribute
with a truthy value is present; in every other case — in particular when
`success` is absent, which counts as success — it yields running with the
completion message. -/
theorem C3_tool_result_amended (attributes : AttrMap) :
    map_event_to_state "codex.tool_result" attributes =
      tool_result_amended_spec attributes := by
  unfold map_event_to_state tool_result_amended_spec toolMsg toolNameOf
  cases hs : getAttr attributes "success" <;>
    cases h1 : getAttr attributes "tool_name" <;>
      cases h2 : getAttr attributes "tool" <;>
        simp [hs, h1, h2, Option.orElse, Value.truthy]

/-- C7: an event name outside the recognized set classifies to no decision
with an empty message, and processing a record whose resolved event name is
outside the recognized set performs no effect at all — in particular it
writes no persisted per-pane status record. -/
theorem C7_unrecognized_event_writes_nothing (name : String)
    (attributes : AttrMap) (r : Receiver) (rec : Record)
    (hn : name ∉ recognizedEvents)
    (hr : eventNameOf rec ∉ recognizedEvents) :
    map_event_to_state name attributes = (none, "") ∧
    (process_record r rec).2 = [] := by
  have hgen : ∀ (nm : String), nm ∉ recognizedEvents →
      ∀ (ats : AttrMap), map_event_to_state nm ats = (none, "") := by
    intro nm hnm ats
    simp only [recognizedEvents, List.mem_cons, List.not_mem_nil, or_false,
      not_or] at hnm
    obtain ⟨n1, n2, n3, n4, n5, n6⟩ := hnm
    unfold map_event_to_state
    simp [n1, n2, n3, n4, n5, n6]
  refine ⟨hgen name hn attributes, ?_⟩
  have hmap := hgen _ hr (extractAttributes rec.attributes)
  unfold process_record
  by_cases hev : (eventNameOf rec == "") = true
  · simp [hev]
  · simp only [hev, Bool.false_eq_true, if_false]
    by_cases h2 : strOptFalsy
        (get_pane_for_conversation r
          (conversationIdOf (extractAttributes rec.attributes))).1 = true
    · simp only [h2, if_true]
      by_cases h3 : strOptFalsy (fallbackPendingScan
          (get_pane_for_conversation r
            (conversationIdOf (extractAttributes rec.attributes))).2.mappings
          (conversationIdOf (extractAttributes rec.attributes))).1 = true
      · simp [h3]
      · simp only [h3, Bool.false_eq_true, if_false]
        cases hsm : (map_event_to_state (eventNameOf rec)
            (extractAttributes rec.attributes)).1 with
        | none => simp
        | some st =>
          rw [hmap] at hsm
          cases hsm
    · simp only [h2, Bool.false_eq_true, if_false]
      cases hsm : (map_event_to_state (eventNameOf rec)
          (extractAttributes rec.attributes)).1 with
      | none => simp
      | some st =>
        rw [hmap] at hsm
        cases hsm

theorem C7_unrecognized_event_writes_nothing_witness :
    ("codex.unknown" ∉ recognizedEvents ∧
      eventNameOf { name := "other.event", attributes := [] } ∉ recognizedEvents) ∧
    map_event_to_state "codex.unknown" [] = (none, "") ∧
    (process_record { mappings := [("pending_%3", ⟨"%3", 10, none⟩)], last_activity := 0 }
        { name := "other.event", attributes := [] }).2 = [] :=
  ⟨⟨by decide, by decide⟩,
   (C7_unrecognized_event_writes_nothing "codex.unknown" []
      { mappings := [("pending_%3", ⟨"%3", 10, none⟩)], last_activity := 0 }
      { name := "other.event", attributes := [] } (by decide) (by decide)).1,
   (C7_unrecognized_event_writes_nothing "codex.unknown" []
      { mappings := [("pending_%3", ⟨"%3", 10, none⟩)], last_activity := 0 }
      { name := "other.event", attributes := [] } (by decide) (by decide)).2⟩

/-- C8, counterexample: no sequence of `register` operations on a single
pane `P` (with no intervening resolve or unregister, starting from the empty
table) can ever leave more than one pending binding for `P`: the claimed
accumulation is impossible. -/
theorem C8_counterexample :
    ¬ ∃ (P : String) (ops : List (Option String × Int)),
        1 < countPendingFor P
          (run_registers P ops { mappings := [], last_activity := 0 }).mappings := by
  rintro ⟨P, ops, hlt⟩
  obtain ⟨hnd, hkey⟩ := run_registers_invariant P ops
    { mappings := [], last_activity := 0 } (by simp) (by simp)
  have hle := countP_le_one_of_key_forced _ (isPendingFor P) ("pending_" ++ P) hnd hkey
  unfold countPendingFor at hlt
  omega

/-- C8, amended: a register without a conversation id always reuses the one
synthetic key `pending_P`, so after any sequence of `register` operations on
pane `P` starting from an empty table, at most one pending binding for `P`
exists; a pane cannot accumulate several pending bindings. -/
theorem C8_at_most_one_pending_per_pane (P : String)
    (ops : List (Option String × Int)) :
    countPendingFor P
      (run_registers P ops { mappings := [], last_activity := 0 }).mappings ≤ 1 := by
  obtain ⟨hnd, hkey⟩ := run_registers_invariant P ops
    { mappings := [], last_activity := 0 } (by simp) (by simp)
  exact countP_le_one_of_key_forced _ _ _ hnd hkey

end OtelReceiver
